import Mathlib

/-!
Shallow embedding of the tic-tac-toe game logic of `src/script.js`.

The JS module keeps four pieces of mutable state: `boardState` (an array of
nine strings `''`/`'X'`/`'O'`), `gameActive`, `isProcessing`, and the DOM
status element's text/class.  We model marks as an inductive `Mark`
(`E` for the empty string), the board as a `List Mark`, and the module state
as a `GameState` record.  DOM rendering calls (`renderMark`,
`clearBoardVisuals`, `highlightWinningCells`) are modelled as emitted
`Event`s; the status element's text and CSS class are kept in the state.
JS `Math.random()` picks are modelled by `Nat` parameters reduced modulo the
length of the list being picked from.
-/

namespace TTT

/-- A cell's content: `E` models the JS empty string `''`, `X` the player
mark, `O` the AI mark. -/
inductive Mark
  | E
  | X
  | O
deriving DecidableEq, Fintype

open Mark

/-- `const PLAYER = 'X'` (script.js line 19). -/
def PLAYER : Mark := X

/-- `const AI = 'O'` (script.js line 20). -/
def AI : Mark := O

/-- `winConditions` (script.js lines 27-31): the 8 lines in their fixed
source order. -/
def winConditions : List (List Nat) :=
  [[0,1,2],[3,4,5],[6,7,8],[0,3,6],[1,4,7],[2,5,8],[0,4,8],[2,4,6]]

/-- Reading `boardState[i]` for an in-range index (all uses below index with
constants 0-8 into the length-9 board). -/
def cell (b : List Mark) (i : Nat) : Mark := b.getD i E

/-- Result of `checkWinner()`: `'X'`/`'O'` (a winner mark), `'draw'`, or
`null` (game continues). -/
inductive CheckResult
  | winner (m : Mark)
  | draw
  | cont
deriving DecidableEq

/-- The loop of `checkWinner()` (script.js lines 46-51): first line whose
three cells hold the same truthy (non-`E`) value yields that value. -/
def firstWin (b : List Mark) : List (List Nat) → Option Mark
  | [] => none
  | l :: rest =>
    match l with
    | [i, j, k] =>
      if cell b i ≠ E ∧ cell b i = cell b j ∧ cell b j = cell b k
      then some (cell b i)
      else firstWin b rest
    | _ => firstWin b rest

/-- `checkWinner()` (script.js lines 45-54). -/
def checkWinner (b : List Mark) : CheckResult :=
  match firstWin b winConditions with
  | some m => .winner m
  | none => if b.contains E then .cont else .draw

/-- The loop of `findWinningMove` (script.js lines 132-141), recursing over
the remaining win conditions. -/
def findWinAux (b : List Mark) (player : Mark) : List (List Nat) → Option Nat
  | [] => none
  | l :: rest =>
    let marks := l.map (cell b)
    if marks.count player = 2 ∧ marks.count E = 1
    then l.find? (fun i => cell b i == E)
    else findWinAux b player rest

/-- `findWinningMove(player)` (script.js lines 131-143). -/
def findWinningMove (b : List Mark) (player : Mark) : Option Nat :=
  findWinAux b player winConditions

/-- `emptyIndices` (script.js lines 126-128): the indices holding `''`. -/
def emptyIndices (b : List Mark) : List Nat :=
  (List.range b.length).filter (fun i => cell b i == E)

/-- The module's mutable state: `boardState`, `gameActive`, `isProcessing`
(script.js lines 21-23) plus the status element's text and result class. -/
structure GameState where
  boardState : List Mark
  gameActive : Bool
  isProcessing : Bool
  statusText : String
  statusCss : Option String
deriving DecidableEq

/-- DOM side effects emitted by the controller. -/
inductive Event
  | renderMark (index : Nat) (player : Mark)
  | clearVisuals
  | highlightWin (player : Mark)
deriving DecidableEq

/-- The argument of `finishGame` (script.js line 192): `PLAYER`, `AI`, or
`'draw'`. -/
inductive FinRes
  | player
  | agent
  | draw
deriving DecidableEq

/-- `finishGame(result)` (script.js lines 192-211). -/
def finishGame (s : GameState) (result : FinRes) : GameState × List Event :=
  let s1 := { s with gameActive := false, isProcessing := false }
  match result with
  | .player =>
    ({ s1 with statusText := "You Win 🎉", statusCss := some "win" },
     [Event.highlightWin PLAYER])
  | .agent =>
    ({ s1 with statusText := "You Lose 😞", statusCss := some "lose" },
     [Event.highlightWin AI])
  | .draw =>
    ({ s1 with statusText := "It's a Draw 🤝", statusCss := some "draw" }, [])

/-- Reading `boardState[index]` for an arbitrary caller-supplied index:
out-of-range access yields JS `undefined`, modelled as `none`. -/
def jsGet (b : List Mark) (i : Int) : Option Mark :=
  if 0 ≤ i then b.get? i.toNat else none

/-- `handlePlayerMove(index)` (script.js lines 88-115).  The `setTimeout`
scheduling of `aiMove` is the presentation layer's; the state change it
leaves behind is `isProcessing = true` and the "AI's Turn" status. -/
def handlePlayerMove (s : GameState) (index : Int) : GameState × List Event :=
  if s.gameActive = false ∨ s.isProcessing = true then (s, [])
  else if jsGet s.boardState index ≠ some E then (s, [])
  else
    let b := s.boardState.set index.toNat PLAYER
    let s1 := { s with boardState := b }
    let ev : List Event := [Event.renderMark index.toNat PLAYER]
    let result := checkWinner b
    if result = .winner PLAYER then
      let p := finishGame s1 .player
      (p.1, ev ++ p.2)
    else if result = .draw then
      let p := finishGame s1 .draw
      (p.1, ev ++ p.2)
    else
      ({ s1 with statusText := "AI's Turn", isProcessing := true }, ev)

/-- The common tail of `aiMove` (script.js lines 172-188): place the AI mark
on the chosen cell and evaluate the outcome. -/
def placeAndCheck (s : GameState) (chosen : Nat) : GameState × List Event :=
  let b := s.boardState.set chosen AI
  let s1 := { s with boardState := b }
  let ev : List Event := [Event.renderMark chosen AI]
  let result := checkWinner b
  if result = .winner AI then
    let p := finishGame s1 .agent
    (p.1, ev ++ p.2)
  else if result = .draw then
    let p := finishGame s1 .draw
    (p.1, ev ++ p.2)
  else
    ({ s1 with statusText := "Your Turn" }, ev)

/-- The cell-selection cascade of `aiMove` (script.js lines 145-170):
win, block, center, random empty corner, random empty cell; `none` exactly
when the board has no empty cell (the `avail.length === 0` branch).
`r1`, `r2` stand for the two `Math.random()` draws. -/
def aiChoice (b : List Mark) (r1 r2 : Nat) : Option Nat :=
  let chosen0 := findWinningMove b AI
  let chosen1 := if chosen0 = none then findWinningMove b PLAYER else chosen0
  let chosen2 := if chosen1 = none ∧ cell b 4 = E then some 4 else chosen1
  let corners := [0,2,6,8].filter (fun i => cell b i == E)
  let chosen3 :=
    if chosen2 = none ∧ corners ≠ []
    then some (corners.getD (r1 % corners.length) 0)
    else chosen2
  match chosen3 with
  | some c => some c
  | none =>
    let avail := emptyIndices b
    if avail = [] then none
    else some (avail.getD (r2 % avail.length) 0)

/-- `aiMove()` (script.js lines 123-189). -/
def aiMove (s : GameState) (r1 r2 : Nat) : GameState × List Event :=
  if s.gameActive = false then (s, [])
  else
    match aiChoice s.boardState r1 r2 with
    | some c => placeAndCheck s c
    | none =>
      if checkWinner s.boardState = .draw then finishGame s .draw else (s, [])

/-- `resetGame()` (script.js lines 227-234). -/
def resetGame (_s : GameState) : GameState × List Event :=
  ({ boardState := List.replicate 9 E, gameActive := true,
     isProcessing := false, statusText := "Your Turn", statusCss := none },
   [Event.clearVisuals])

/-- The state right after the module-load `resetGame()` call
(script.js line 257). -/
def initialState : GameState :=
  { boardState := List.replicate 9 E, gameActive := true,
    isProcessing := false, statusText := "Your Turn", statusCss := none }

/-- One player step of the state machine: the state left by
`handlePlayerMove`. -/
def playerStep (s : GameState) (i : Int) : GameState := (handlePlayerMove s i).1

/-- One agent step of the state machine: the `setTimeout` callback
(script.js lines 111-114) runs `aiMove()` and then clears `isProcessing`. -/
def agentTick (s : GameState) (r1 r2 : Nat) : GameState :=
  let s1 := (aiMove s r1 r2).1
  { s1 with isProcessing := false }

/-- The states reachable from module load through the controller's
transitions: player moves, agent ticks, and resets. -/
inductive Reachable : GameState → Prop
  | init : Reachable initialState
  | reset (s : GameState) : Reachable s → Reachable (resetGame s).1
  | player (s : GameState) (i : Int) : Reachable s → Reachable (playerStep s i)
  | agent (s : GameState) (r1 r2 : Nat) : Reachable s → Reachable (agentTick s r1 r2)

/-- The mark `m` has a completed line on `b`. -/
def hasLine (b : List Mark) (m : Mark) : Bool :=
  winConditions.any (fun l => l.all (fun i => cell b i == m))

/-- The spec's `GameStatus` enumeration. -/
inductive GameStatus
  | InProgress
  | PlayerWon
  | AgentWon
  | Draw
deriving DecidableEq

/-- The Won status corresponding to a winner mark. -/
def statusOfMark (m : Mark) : GameStatus :=
  match m with
  | X => .PlayerWon
  | O => .AgentWon
  | E => .InProgress

/-- Reading a `checkWinner` result as the spec's `GameStatus`. -/
def toGameStatus (r : CheckResult) : GameStatus :=
  match r with
  | .winner m => statusOfMark m
  | .draw => .Draw
  | .cont => .InProgress

/-- The spec's `getStatus()` query, derived from the board. -/
def getStatus (s : GameState) : GameStatus := toGameStatus (checkWinner s.boardState)

/-- Modelled from the spec's words for `checkOutcome`: the shared non-Empty
mark of a line, if the line's three cells all hold it. -/
def lineUniformMark (b : List Mark) (l : List Nat) : Option Mark :=
  match l.map (cell b) with
  | [x, y, z] => if x ≠ E ∧ x = y ∧ x = z then some x else none
  | _ => none

/-- Modelled from the spec's words: `checkOutcome(board) -> GameStatus` —
the Won status of the first line whose cells share a non-Empty mark, else
Draw when no Empty cell remains, else InProgress. -/
def specCheckOutcome (b : List Mark) : GameStatus :=
  match winConditions.findSome? (lineUniformMark b) with
  | some m => statusOfMark m
  | none => if b.contains E = false then .Draw else .InProgress

/-- The spec's condition on a line: exactly two cells equal to `m` and one
Empty cell. -/
def completingPred (b : List Mark) (m : Mark) (l : List Nat) : Bool :=
  (l.map (cell b)).count m == 2 && (l.map (cell b)).count E == 1

/-- Modelled from the spec's words: `findCompletingCell(board, mark)` — the
first line (fixed order) with exactly two cells equal to `mark` and one
Empty cell yields its Empty cell's index. -/
def specFindCompletingCell (b : List Mark) (m : Mark) : Option Nat :=
  (winConditions.find? (completingPred b m)).bind
    (fun l => l.find? (fun i => cell b i == E))

/-! ### Basic lemmas about cells, lines and `checkWinner` -/

/-- Every win condition is a three-element line. -/
theorem winConditions_shape :
    ∀ l ∈ winConditions, ∃ i j k, l = [i, j, k] := by
  intro l hl
  fin_cases hl <;> exact ⟨_, _, _, rfl⟩

/-- Every index occurring in a win condition is below 9. -/
theorem winConditions_lt (l : List Nat) (hl : l ∈ winConditions) :
    ∀ i ∈ l, i < 9 := by
  intro i hi
  fin_cases hl <;> simp at hi <;> rcases hi with rfl | rfl | rfl <;> norm_num

/-- Writing mark `m` into a cell cannot make another mark `m'` appear. -/
theorem cell_set_mono {b : List Mark} {j i : Nat} {m m' : Mark} (hm : m' ≠ m)
    (h : cell (b.set j m) i = m') : cell b i = m' := by
  by_cases hij : i = j
  · subst hij
    by_cases hlt : i < b.length
    · unfold cell at h
      rw [List.getD_eq_getElem?_getD, List.getElem?_set, if_pos rfl, if_pos hlt] at h
      simp only [Option.getD_some] at h
      exact absurd h hm.symm
    · rw [List.set_eq_of_length_le (Nat.le_of_not_lt hlt)] at h
      exact h
  · unfold cell at h ⊢
    rw [List.getD_eq_getElem?_getD, List.getElem?_set, if_neg (fun hc => hij hc.symm)] at h
    rw [List.getD_eq_getElem?_getD]
    exact h

/-- `hasLine` unfolded to its propositional meaning. -/
theorem hasLine_iff {b : List Mark} {m : Mark} :
    hasLine b m = true ↔ ∃ l, l ∈ winConditions ∧ ∀ i ∈ l, cell b i = m := by
  simp only [hasLine, List.any_eq_true, List.all_eq_true, beq_iff_eq]

/-- Writing mark `m` cannot create a completed line of a different mark. -/
theorem hasLine_set_mono {b : List Mark} {j : Nat} {m m' : Mark} (hm : m' ≠ m)
    (h : hasLine (b.set j m) m' = true) : hasLine b m' = true := by
  obtain ⟨l, hl, hall⟩ := hasLine_iff.mp h
  exact hasLine_iff.mpr ⟨l, hl, fun i hi => cell_set_mono hm (hall i hi)⟩

/-- Contrapositive form of `hasLine_set_mono`. -/
theorem hasLine_set_of_ne {b : List Mark} {j : Nat} {m m' : Mark} (hm : m' ≠ m)
    (h : hasLine b m' = false) : hasLine (b.set j m) m' = false := by
  cases hh : hasLine (b.set j m) m' with
  | false => rfl
  | true => rw [hasLine_set_mono hm hh] at h; exact absurd h (by simp)

/-- If the `checkWinner` loop finds a winner, that winner is a non-Empty mark
with a completed line among the scanned conditions. -/
theorem firstWin_eq_some {b : List Mark} {m : Mark} {ls : List (List Nat)}
    (h : firstWin b ls = some m) :
    m ≠ E ∧ ∃ l, l ∈ ls ∧ ∀ i ∈ l, cell b i = m := by
  induction ls with
  | nil => simp [firstWin] at h
  | cons l rest ih =>
    have step : ∀ h' : firstWin b rest = some m,
        m ≠ E ∧ ∃ l', l' ∈ l :: rest ∧ ∀ i ∈ l', cell b i = m := by
      intro h'
      obtain ⟨hmE, l', hl', hall⟩ := ih h'
      exact ⟨hmE, l', List.mem_cons_of_mem _ hl', hall⟩
    rcases l with _ | ⟨i, _ | ⟨j, _ | ⟨k, _ | ⟨w, ws⟩⟩⟩⟩
    · exact step (by simpa [firstWin] using h)
    · exact step (by simpa [firstWin] using h)
    · exact step (by simpa [firstWin] using h)
    · rw [firstWin] at h
      by_cases hg : cell b i ≠ E ∧ cell b i = cell b j ∧ cell b j = cell b k
      · rw [if_pos hg] at h
        obtain ⟨hne, hij, hjk⟩ := hg
        injection h with hm'
        subst hm'
        refine ⟨hne, [i, j, k], List.mem_cons_self _ _, ?_⟩
        intro x hx
        rcases List.mem_cons.mp hx with rfl | hx'
        · rfl
        rcases List.mem_cons.mp hx' with rfl | hx''
        · exact hij.symm
        rcases List.mem_cons.mp hx'' with rfl | hx'''
        · exact (hij.trans hjk).symm
        · simp at hx'''
      · rw [if_neg hg] at h
        exact step h
    · exact step (by simpa [firstWin] using h)

/-- If the `checkWinner` loop finds nothing, no scanned (three-element)
condition is a completed line of a non-Empty mark. -/
theorem firstWin_eq_none {b : List Mark} {ls : List (List Nat)}
    (hshape : ∀ l ∈ ls, ∃ i j k, l = [i, j, k])
    (h : firstWin b ls = none) {l : List Nat} (hl : l ∈ ls) {m : Mark}
    (hm : m ≠ E) (hall : ∀ i ∈ l, cell b i = m) : False := by
  induction ls with
  | nil => simp at hl
  | cons l0 rest ih =>
    obtain ⟨i, j, k, rfl⟩ := hshape l0 (List.mem_cons_self _ _)
    rw [firstWin] at h
    by_cases hg : cell b i ≠ E ∧ cell b i = cell b j ∧ cell b j = cell b k
    · rw [if_pos hg] at h
      exact Option.noConfusion h
    · rw [if_neg hg] at h
      rcases List.mem_cons.mp hl with rfl | hl'
      · refine hg ?_
        have hi := hall i (by simp)
        have hj := hall j (by simp)
        have hk := hall k (by simp)
        rw [hi, hj, hk]
        exact ⟨hm, rfl, rfl⟩
      · exact ih (fun l' hl'' => hshape l' (List.mem_cons_of_mem _ hl'')) h hl'

/-- If mark `m` has a completed line and no other non-Empty mark does,
`checkWinner` reports `m` as the winner. -/
theorem checkWinner_winner_of {b : List Mark} {m : Mark} (hmE : m ≠ E)
    (hm : hasLine b m = true)
    (hother : ∀ m', m' ≠ E → m' ≠ m → hasLine b m' = false) :
    checkWinner b = .winner m := by
  obtain ⟨l, hl, hall⟩ := hasLine_iff.mp hm
  unfold checkWinner
  cases hfw : firstWin b winConditions with
  | none => exact absurd (firstWin_eq_none winConditions_shape hfw hl hmE hall) not_false
  | some m' =>
    obtain ⟨hm'E, l', hl', hall'⟩ := firstWin_eq_some hfw
    by_cases hmm : m' = m
    · rw [hmm]
    · have : hasLine b m' = true := hasLine_iff.mpr ⟨l', hl', hall'⟩
      rw [hother m' hm'E hmm] at this
      exact absurd this (by simp)

/-- A mark with a completed line but no reported win is impossible when no
other non-Empty mark has a line. -/
theorem hasLine_false_of_not_winner {b : List Mark} {m : Mark} (hmE : m ≠ E)
    (hother : ∀ m', m' ≠ E → m' ≠ m → hasLine b m' = false)
    (hne : checkWinner b ≠ .winner m) : hasLine b m = false := by
  cases hh : hasLine b m with
  | false => rfl
  | true => exact absurd (checkWinner_winner_of hmE hh hother) hne

/-! ### Lemmas about `findWinningMove` -/

/-- The guard of the `findWinningMove` loop coincides with the spec's
two-of-`m`-and-one-Empty condition. -/
theorem completingPred_iff {b : List Mark} {m : Mark} {l : List Nat} :
    completingPred b m l = true ↔
      (l.map (cell b)).count m = 2 ∧ (l.map (cell b)).count E = 1 := by
  simp only [completingPred, Bool.and_eq_true, beq_iff_eq]

/-- A line satisfying the completing condition contains an Empty cell. -/
theorem completingPred_has_empty {b : List Mark} {m : Mark} {l : List Nat}
    (h : completingPred b m l = true) : ∃ i ∈ l, cell b i = E := by
  have hcount : (l.map (cell b)).count E = 1 := (completingPred_iff.mp h).2
  have hmem : E ∈ l.map (cell b) := by
    rw [← List.count_pos_iff, hcount]
    exact Nat.one_pos
  obtain ⟨i, hi, hcell⟩ := List.mem_map.mp hmem
  exact ⟨i, hi, hcell⟩

/-- The `findWinningMove` loop agrees with the spec's
first-matching-line-then-its-Empty-cell description. -/
theorem findWinAux_eq {b : List Mark} {m : Mark} :
    ∀ ls : List (List Nat),
      findWinAux b m ls = (ls.find? (completingPred b m)).bind
        (fun l => l.find? (fun i => cell b i == E)) := by
  intro ls
  induction ls with
  | nil => rfl
  | cons l rest ih =>
    by_cases hp : completingPred b m l = true
    · rw [List.find?_cons_of_pos _ hp, Option.some_bind, findWinAux,
        if_pos (completingPred_iff.mp hp)]
    · rw [List.find?_cons_of_neg _ hp, findWinAux,
        if_neg (fun hc => hp (completingPred_iff.mpr hc))]
      exact ih

/-- `findWinningMove` equals the spec-worded `findCompletingCell`. -/
theorem findWinningMove_eq_spec (b : List Mark) (m : Mark) :
    findWinningMove b m = specFindCompletingCell b m :=
  findWinAux_eq winConditions

/-- `findWinningMove` returns `none` exactly when no line satisfies the
two-of-`m`-and-one-Empty condition. -/
theorem findWinningMove_eq_none_iff {b : List Mark} {m : Mark} :
    findWinningMove b m = none ↔
      ∀ l ∈ winConditions, ¬completingPred b m l = true := by
  rw [findWinningMove, findWinAux_eq]
  constructor
  · intro h l hl hp
    cases hf : winConditions.find? (completingPred b m) with
    | none => exact (List.find?_eq_none.mp hf) l hl hp
    | some l0 =>
      rw [hf, Option.some_bind] at h
      obtain ⟨i, hi, hcell⟩ := completingPred_has_empty (List.find?_some hf)
      have : ¬(cell b i == E) = true := List.find?_eq_none.mp h i hi
      rw [beq_iff_eq] at this
      exact this hcell
  · intro h
    rw [List.find?_eq_none.mpr h]
    rfl

/-- A cell returned by `findWinningMove` is Empty. -/
theorem findWinningMove_some_empty {b : List Mark} {m : Mark} {i : Nat}
    (h : findWinningMove b m = some i) : cell b i = E := by
  rw [findWinningMove, findWinAux_eq] at h
  cases hf : winConditions.find? (completingPred b m) with
  | none => rw [hf] at h; exact Option.noConfusion h
  | some l0 =>
    rw [hf, Option.some_bind] at h
    have hp := List.find?_some h
    simp only [beq_iff_eq] at hp
    exact hp

/-! ### Full-board behaviour of the agent -/

/-- With no Empty cell on a 9-cell board, every rule of the cascade fails:
`aiChoice` is `none`. -/
theorem aiChoice_of_full {b : List Mark} (h9 : b.length = 9)
    (hfull : emptyIndices b = []) (r1 r2 : Nat) : aiChoice b r1 r2 = none := by
  have hcell : ∀ i, i < 9 → cell b i ≠ E := by
    intro i hi hE
    have hmem : i ∈ emptyIndices b := by
      unfold emptyIndices
      rw [h9]
      rw [List.mem_filter]
      exact ⟨List.mem_range.mpr hi, by rw [beq_iff_eq]; exact hE⟩
    rw [hfull] at hmem
    simp at hmem
  have hfw : ∀ m, findWinningMove b m = none := by
    intro m
    rw [findWinningMove_eq_none_iff]
    intro l hl hp
    obtain ⟨i, hi, hcellE⟩ := completingPred_has_empty hp
    exact hcell i (winConditions_lt l hl i hi) hcellE
  have hc4 : ¬cell b 4 = E := hcell 4 (by norm_num)
  have hcor : [0,2,6,8].filter (fun i => cell b i == E) = [] := by
    rw [List.filter_eq_nil_iff]
    intro a ha
    rw [beq_iff_eq]
    rcases List.mem_cons.mp ha with rfl | ha'
    · exact hcell 0 (by norm_num)
    rcases List.mem_cons.mp ha' with rfl | ha''
    · exact hcell 2 (by norm_num)
    rcases List.mem_cons.mp ha'' with rfl | ha'''
    · exact hcell 6 (by norm_num)
    rcases List.mem_cons.mp ha''' with rfl | ha''''
    · exact hcell 8 (by norm_num)
    · simp at ha''''
  simp only [aiChoice, hfw, hc4, hcor, hfull]
  simp

/-! ### The controller's inductive invariant -/

/-- Fields of `finishGame` needed below: the board is untouched and the game
becomes inactive. -/
theorem finishGame_fields (s : GameState) (r : FinRes) :
    (finishGame s r).1.boardState = s.boardState
    ∧ (finishGame s r).1.gameActive = false := by
  cases r <;> exact ⟨rfl, rfl⟩

/-- The inductive invariant: the board has 9 cells, no completed line exists
while the game is active, and the two marks never both have a completed
line. -/
def Inv (s : GameState) : Prop :=
  s.boardState.length = 9
  ∧ (s.gameActive = true →
      hasLine s.boardState X = false ∧ hasLine s.boardState O = false)
  ∧ ¬(hasLine s.boardState X = true ∧ hasLine s.boardState O = true)

theorem inv_initialState : Inv initialState := by
  refine ⟨rfl, fun _ => ⟨?_, ?_⟩, ?_⟩ <;> decide

theorem inv_playerStep {s : GameState} (h : Inv s) (i : Int) :
    Inv (playerStep s i) := by
  obtain ⟨h9, hact, hone⟩ := h
  unfold playerStep handlePlayerMove
  by_cases hg1 : s.gameActive = false ∨ s.isProcessing = true
  · rw [if_pos hg1]
    exact ⟨h9, hact, hone⟩
  · rw [if_neg hg1]
    by_cases hg2 : jsGet s.boardState i ≠ some E
    · rw [if_pos hg2]
      exact ⟨h9, hact, hone⟩
    · rw [if_neg hg2]
      have hactive : s.gameActive = true := by
        rcases Bool.eq_false_or_eq_true s.gameActive with ht | hf
        · exact ht
        · exact absurd (Or.inl hf) hg1
      have hnw := hact hactive
      have h9' : (s.boardState.set i.toNat PLAYER).length = 9 := by
        rw [List.length_set]; exact h9
      have hO' : hasLine (s.boardState.set i.toNat PLAYER) O = false :=
        hasLine_set_of_ne (by decide) hnw.2
      dsimp only
      by_cases hw : checkWinner (s.boardState.set i.toNat PLAYER) = .winner PLAYER
      · rw [if_pos hw]
        refine ⟨?_, ?_, ?_⟩
        · rw [(finishGame_fields _ _).1]; exact h9'
        · intro hga
          rw [(finishGame_fields _ _).2] at hga
          exact Bool.noConfusion hga
        · intro hc
          have hcO := hc.2
          rw [(finishGame_fields _ _).1] at hcO
          have : hasLine (s.boardState.set i.toNat PLAYER) O = false := hO'
          rw [hcO] at this
          exact Bool.noConfusion this
      · rw [if_neg hw]
        by_cases hd : checkWinner (s.boardState.set i.toNat PLAYER) = .draw
        · rw [if_pos hd]
          refine ⟨?_, ?_, ?_⟩
          · rw [(finishGame_fields _ _).1]; exact h9'
          · intro hga
            rw [(finishGame_fields _ _).2] at hga
            exact Bool.noConfusion hga
          · intro hc
            have hcO := hc.2
            rw [(finishGame_fields _ _).1] at hcO
            have : hasLine (s.boardState.set i.toNat PLAYER) O = false := hO'
            rw [hcO] at this
            exact Bool.noConfusion this
        · rw [if_neg hd]
          have hX' : hasLine (s.boardState.set i.toNat PLAYER) X = false := by
            refine hasLine_false_of_not_winner (by decide) ?_ hw
            intro m' hm'E hm'X
            cases m' with
            | E => exact absurd rfl hm'E
            | X => exact absurd rfl hm'X
            | O => exact hO'
          refine ⟨h9', fun _ => ⟨hX', hO'⟩, ?_⟩
          intro hc
          have := hc.1
          rw [hX'] at this
          exact Bool.noConfusion this

theorem inv_aiMove {s : GameState} (h : Inv s) (r1 r2 : Nat) :
    Inv (aiMove s r1 r2).1 := by
  obtain ⟨h9, hact, hone⟩ := h
  unfold aiMove
  by_cases hg : s.gameActive = false
  · rw [if_pos hg]
    exact ⟨h9, hact, hone⟩
  · rw [if_neg hg]
    have hactive : s.gameActive = true := by
      rcases Bool.eq_false_or_eq_true s.gameActive with ht | hf
      · exact ht
      · exact absurd hf hg
    have hnw := hact hactive
    rcases hch : aiChoice s.boardState r1 r2 with _ | c
    · dsimp only
      by_cases hd : checkWinner s.boardState = .draw
      · rw [if_pos hd]
        refine ⟨?_, ?_, ?_⟩
        · rw [(finishGame_fields _ _).1]; exact h9
        · intro hga
          rw [(finishGame_fields _ _).2] at hga
          exact Bool.noConfusion hga
        · intro hc
          exact hone hc
      · rw [if_neg hd]
        exact ⟨h9, hact, hone⟩
    · dsimp only
      unfold placeAndCheck
      have h9' : (s.boardState.set c AI).length = 9 := by
        rw [List.length_set]; exact h9
      have hX' : hasLine (s.boardState.set c AI) X = false :=
        hasLine_set_of_ne (by decide) hnw.1
      dsimp only
      by_cases hw : checkWinner (s.boardState.set c AI) = .winner AI
      · rw [if_pos hw]
        refine ⟨?_, ?_, ?_⟩
        · rw [(finishGame_fields _ _).1]; exact h9'
        · intro hga
          rw [(finishGame_fields _ _).2] at hga
          exact Bool.noConfusion hga
        · intro hc
          have hcX := hc.1
          rw [(finishGame_fields _ _).1] at hcX
          have : hasLine (s.boardState.set c AI) X = false := hX'
          rw [hcX] at this
          exact Bool.noConfusion this
      · rw [if_neg hw]
        by_cases hd : checkWinner (s.boardState.set c AI) = .draw
        · rw [if_pos hd]
          refine ⟨?_, ?_, ?_⟩
          · rw [(finishGame_fields _ _).1]; exact h9'
          · intro hga
            rw [(finishGame_fields _ _).2] at hga
            exact Bool.noConfusion hga
          · intro hc
            have hcX := hc.1
            rw [(finishGame_fields _ _).1] at hcX
            have : hasLine (s.boardState.set c AI) X = false := hX'
            rw [hcX] at this
            exact Bool.noConfusion this
        · rw [if_neg hd]
          have hO' : hasLine (s.boardState.set c AI) O = false := by
            refine hasLine_false_of_not_winner (by decide) ?_ hw
            intro m' hm'E hm'O
            cases m' with
            | E => exact absurd rfl hm'E
            | O => exact absurd rfl hm'O
            | X => exact hX'
          refine ⟨h9', fun _ => ⟨hX', hO'⟩, ?_⟩
          intro hc
          have := hc.1
          rw [hX'] at this
          exact Bool.noConfusion this

theorem inv_agentTick {s : GameState} (h : Inv s) (r1 r2 : Nat) :
    Inv (agentTick s r1 r2) := by
  have hi := inv_aiMove h r1 r2
  exact ⟨hi.1, hi.2.1, hi.2.2⟩

theorem inv_reachable {s : GameState} (h : Reachable s) : Inv s := by
  induction h with
  | init => exact inv_initialState
  | reset s hs ih => exact inv_initialState
  | player s i hs ih => exact inv_playerStep ih i
  | agent s r1 r2 hs ih => exact inv_agentTick ih r1 r2

/-! ### Remaining helper lemmas -/

/-- A `Math.random()`-style pick (index reduced modulo the length) from a
non-empty list is a member of that list. -/
theorem getD_mem_of_ne_nil {l : List Nat} (h : l ≠ []) (n : Nat) :
    l.getD (n % l.length) 0 ∈ l := by
  have hlen : 0 < l.length := List.length_pos.mpr h
  have hlt : n % l.length < l.length := Nat.mod_lt _ hlen
  rw [List.getD_eq_getElem?_getD, List.getElem?_eq_getElem hlt]
  exact List.getElem_mem hlt

/-- The `checkWinner` loop coincides with the spec's
first-line-with-a-shared-non-Empty-mark scan. -/
theorem firstWin_eq_findSome? (b : List Mark) :
    ∀ ls : List (List Nat), firstWin b ls = ls.findSome? (lineUniformMark b) := by
  intro ls
  induction ls with
  | nil => rfl
  | cons l rest ih =>
    rw [List.findSome?_cons]
    rcases l with _ | ⟨i, _ | ⟨j, _ | ⟨k, _ | ⟨w, ws⟩⟩⟩⟩
    · exact ih
    · exact ih
    · exact ih
    · rw [firstWin]
      by_cases hg : cell b i ≠ E ∧ cell b i = cell b j ∧ cell b j = cell b k
      · rw [if_pos hg]
        have hg' : cell b i ≠ E ∧ cell b i = cell b j ∧ cell b i = cell b k :=
          ⟨hg.1, hg.2.1, hg.2.1.trans hg.2.2⟩
        simp only [lineUniformMark, List.map_cons, List.map_nil]
        rw [if_pos hg']
      · rw [if_neg hg]
        have hg' : ¬(cell b i ≠ E ∧ cell b i = cell b j ∧ cell b i = cell b k) := by
          intro hc
          exact hg ⟨hc.1, hc.2.1, hc.2.1.symm.trans hc.2.2⟩
        simp only [lineUniformMark, List.map_cons, List.map_nil]
        rw [if_neg hg']
        exact ih
    · exact ih

/-! ### Claim theorems -/

/-- C3: for every board, `checkWinner` (read as a `GameStatus`) returns the
Won status of the mark filling the first line (in the fixed order of the 8
lines) whose three cells share the same non-Empty mark; if no line is
complete and no cell is Empty it returns Draw; otherwise InProgress — that
is, it agrees with the spec-worded `specCheckOutcome`. -/
theorem checkWinner_matches_spec (b : List Mark) :
    toGameStatus (checkWinner b) = specCheckOutcome b := by
  unfold checkWinner specCheckOutcome
  rw [← firstWin_eq_findSome?]
  cases hfw : firstWin b winConditions with
  | some m => rfl
  | none =>
    cases hc : b.contains E with
    | true => simp [toGameStatus]
    | false => simp [toGameStatus]

/-- C4: for every board and mark `m`, `findWinningMove` agrees with the
spec-worded `specFindCompletingCell`; it returns `none` iff no line has
exactly two cells equal to `m` and one Empty cell; and any returned index
is an Empty cell. -/
theorem findWinningMove_matches_spec (b : List Mark) (m : Mark) :
    findWinningMove b m = specFindCompletingCell b m
    ∧ (findWinningMove b m = none ↔
        ∀ l ∈ winConditions,
          ¬((l.map (cell b)).count m = 2 ∧ (l.map (cell b)).count E = 1))
    ∧ (∀ i, findWinningMove b m = some i → cell b i = E) := by
  refine ⟨findWinningMove_eq_spec b m, ?_, fun i h => findWinningMove_some_empty h⟩
  rw [findWinningMove_eq_none_iff]
  constructor
  · intro h l hl hc
    exact h l hl (completingPred_iff.mpr hc)
  · intro h l hl hp
    exact h l hl (completingPred_iff.mp hp)

/-- Witness for C4 at a concrete input: the board of Scenario 1, where the
player threatens at cells 0,1 and the completing cell is 2. -/
theorem findWinningMove_matches_spec_witness :
    findWinningMove [X,X,E, E,E,E, E,E,E] X = some 2
    ∧ cell [X,X,E, E,E,E, E,E,E] 2 = E :=
  ⟨by decide, (findWinningMove_matches_spec [X,X,E, E,E,E, E,E,E] X).2.2 2 (by decide)⟩

/-- An active state whose board is full with no three-in-a-row. -/
def c1FullState : GameState :=
  { boardState := [X,X,O, O,O,X, X,O,X], gameActive := true,
    isProcessing := false, statusText := "AI's Turn", statusCss := none }

/-- C1 counterexample: invoked on a full board, `aiMove` does not fail with
any error distinct from normal gameplay outcomes — it silently resolves the
game as a Draw (terminal state, draw status text, no events). -/
theorem aiMove_full_board_silent_draw_cex :
    (aiMove c1FullState 0 0).1.gameActive = false
    ∧ (aiMove c1FullState 0 0).1.statusText = "It's a Draw 🤝"
    ∧ (aiMove c1FullState 0 0).2 = [] := by
  refine ⟨?_, ?_, ?_⟩ <;> rfl

/-- C1 amended: if `aiMove` is invoked while active on a 9-cell board with
no Empty cell, no rule of the cascade applies and it silently falls back to
the outcome check: it finishes the game as a Draw when `checkWinner` says
Draw, and otherwise returns leaving the state unchanged — no
InvariantViolation-class error exists. -/
theorem aiMove_full_board (s : GameState) (r1 r2 : Nat)
    (hact : s.gameActive = true) (h9 : s.boardState.length = 9)
    (hfull : emptyIndices s.boardState = []) :
    aiMove s r1 r2 =
      (if checkWinner s.boardState = .draw then finishGame s .draw
       else (s, [])) := by
  unfold aiMove
  rw [if_neg (by intro hc; rw [hact] at hc; exact Bool.noConfusion hc)]
  rw [aiChoice_of_full h9 hfull r1 r2]

/-- Witness for C1's amended theorem at the concrete full board. -/
theorem aiMove_full_board_witness :
    c1FullState.gameActive = true
    ∧ emptyIndices c1FullState.boardState = []
    ∧ aiMove c1FullState 1 2 =
        (if checkWinner c1FullState.boardState = .draw
         then finishGame c1FullState .draw else (c1FullState, [])) :=
  ⟨rfl, rfl, aiMove_full_board c1FullState 1 2 rfl rfl rfl⟩

/-- C2: the agent's cell choice follows the strict fixed-priority cascade:
(1) a cell completing an agent line; (2) else a cell completing a player
line; (3) else the center cell 4 when Empty; (4) else some Empty corner
among {0,2,6,8}; (5) else some Empty cell — and the chosen cell is the one
the active agent actually plays. -/
theorem agent_cascade_priority (s : GameState) (r1 r2 : Nat) :
    (s.gameActive = true → ∀ c, aiChoice s.boardState r1 r2 = some c →
        (aiMove s r1 r2).1.boardState = s.boardState.set c AI)
    ∧ (∀ i, findWinningMove s.boardState AI = some i →
        aiChoice s.boardState r1 r2 = some i)
    ∧ (∀ i, findWinningMove s.boardState AI = none →
        findWinningMove s.boardState PLAYER = some i →
        aiChoice s.boardState r1 r2 = some i)
    ∧ (findWinningMove s.boardState AI = none →
        findWinningMove s.boardState PLAYER = none →
        cell s.boardState 4 = E → aiChoice s.boardState r1 r2 = some 4)
    ∧ (findWinningMove s.boardState AI = none →
        findWinningMove s.boardState PLAYER = none →
        cell s.boardState 4 ≠ E →
        [0,2,6,8].filter (fun i => cell s.boardState i == E) ≠ [] →
        ∃ c ∈ [0,2,6,8].filter (fun i => cell s.boardState i == E),
          aiChoice s.boardState r1 r2 = some c)
    ∧ (findWinningMove s.boardState AI = none →
        findWinningMove s.boardState PLAYER = none →
        cell s.boardState 4 ≠ E →
        [0,2,6,8].filter (fun i => cell s.boardState i == E) = [] →
        emptyIndices s.boardState ≠ [] →
        ∃ c ∈ emptyIndices s.boardState,
          aiChoice s.boardState r1 r2 = some c) := by
  refine ⟨?_, ?_, ?_, ?_, ?_, ?_⟩
  · intro hact c hch
    unfold aiMove
    rw [if_neg (by intro hc; rw [hact] at hc; exact Bool.noConfusion hc), hch]
    unfold placeAndCheck
    dsimp only
    by_cases hw : checkWinner (s.boardState.set c AI) = .winner AI
    · rw [if_pos hw]
      exact (finishGame_fields _ _).1
    · rw [if_neg hw]
      by_cases hd : checkWinner (s.boardState.set c AI) = .draw
      · rw [if_pos hd]
        exact (finishGame_fields _ _).1
      · rw [if_neg hd]
  · intro i h1
    simp [aiChoice, h1]
  · intro i h1 h2
    simp [aiChoice, h1, h2]
  · intro h1 h2 h4
    simp [aiChoice, h1, h2, h4]
  · intro h1 h2 h4 hcor
    refine ⟨([0,2,6,8].filter (fun i => cell s.boardState i == E)).getD
        (r1 % ([0,2,6,8].filter (fun i => cell s.boardState i == E)).length) 0,
      getD_mem_of_ne_nil hcor r1, ?_⟩
    simp [aiChoice, h1, h2, h4, hcor]
  · intro h1 h2 h4 hcor hav
    refine ⟨(emptyIndices s.boardState).getD
        (r2 % (emptyIndices s.boardState).length) 0,
      getD_mem_of_ne_nil hav r2, ?_⟩
    simp [aiChoice, h1, h2, h4, hcor, hav]

/-- Agent-to-move state where the agent can win on cell 2. -/
def c2WinState : GameState :=
  { boardState := [O,O,E, X,X,E, E,E,E], gameActive := true,
    isProcessing := true, statusText := "AI's Turn", statusCss := none }

/-- Agent-to-move state where only the player threatens (at cell 2). -/
def c2BlockState : GameState :=
  { boardState := [X,X,E, E,E,E, E,E,E], gameActive := true,
    isProcessing := true, statusText := "AI's Turn", statusCss := none }

/-- Agent-to-move state with no threat and a free center. -/
def c2CenterState : GameState :=
  { boardState := [X,E,E, E,E,E, E,E,E], gameActive := true,
    isProcessing := true, statusText := "AI's Turn", statusCss := none }

/-- Agent-to-move state with no threat, center taken, corners free. -/
def c2CornerState : GameState :=
  { boardState := [X,E,E, E,O,E, E,E,E], gameActive := true,
    isProcessing := true, statusText := "AI's Turn", statusCss := none }

/-- Agent-to-move state with no threat, center and all corners taken, one
edge cell (7) Empty. -/
def c2EdgeState : GameState :=
  { boardState := [X,X,O, O,O,X, X,E,O], gameActive := true,
    isProcessing := true, statusText := "AI's Turn", statusCss := none }

/-- Witness for C2: each rule of the cascade exercised at a concrete
board. -/
theorem agent_cascade_priority_witness :
    ((aiMove c2WinState 0 0).1.boardState = c2WinState.boardState.set 2 AI)
    ∧ aiChoice c2WinState.boardState 0 0 = some 2
    ∧ aiChoice c2BlockState.boardState 0 0 = some 2
    ∧ aiChoice c2CenterState.boardState 0 0 = some 4
    ∧ (∃ c ∈ [0,2,6,8].filter (fun i => cell c2CornerState.boardState i == E),
        aiChoice c2CornerState.boardState 3 0 = some c)
    ∧ (∃ c ∈ emptyIndices c2EdgeState.boardState,
        aiChoice c2EdgeState.boardState 0 5 = some c) :=
  ⟨(agent_cascade_priority c2WinState 0 0).1 rfl 2 (by decide),
   (agent_cascade_priority c2WinState 0 0).2.1 2 (by decide),
   (agent_cascade_priority c2BlockState 0 0).2.2.1 2 (by decide) (by decide),
   (agent_cascade_priority c2CenterState 0 0).2.2.2.1 (by decide) (by decide)
     (by decide),
   (agent_cascade_priority c2CornerState 3 0).2.2.2.2.1 (by decide) (by decide)
     (by decide) (by decide),
   (agent_cascade_priority c2EdgeState 0 5).2.2.2.2.2 (by decide) (by decide)
     (by decide) (by decide) (by decide)⟩

/-- C5 counterexample: an out-of-range index (9) passed to
`handlePlayerMove` is silently ignored — state unchanged, no events — it
is not rejected with any fail-fast InvalidIndex error. -/
theorem invalid_index_silent_cex :
    handlePlayerMove initialState 9 = (initialState, []) := by
  rfl

/-- C5 amended: for every index outside [0,8] (on a 9-cell board),
`handlePlayerMove` silently ignores the call as a no-op — exactly like an
occupied-cell move — rather than failing fast with an InvalidIndex error. -/
theorem invalid_index_noop (s : GameState) (i : Int)
    (h9 : s.boardState.length = 9) (h : i < 0 ∨ 8 < i) :
    handlePlayerMove s i = (s, []) := by
  unfold handlePlayerMove
  by_cases hg1 : s.gameActive = false ∨ s.isProcessing = true
  · rw [if_pos hg1]
  · rw [if_neg hg1]
    have hnone : jsGet s.boardState i = none := by
      unfold jsGet
      rcases h with hneg | hbig
      · rw [if_neg (by omega)]
      · rw [if_pos (by omega)]
        rw [List.get?_eq_none]
        rw [h9]
        omega
    rw [if_pos (by rw [hnone]; simp)]

/-- Witness for C5's amended theorem at index 12. -/
theorem invalid_index_noop_witness :
    initialState.boardState.length = 9
    ∧ handlePlayerMove initialState 12 = (initialState, []) :=
  ⟨rfl, invalid_index_noop initialState 12 rfl (Or.inr (by norm_num))⟩

/-- C6: when the game is over, or the processing flag is set, or the target
cell is not Empty, `handlePlayerMove` is a silent no-op: state unchanged
and no events emitted. -/
theorem illegal_move_noop (s : GameState) (i : Int)
    (h : s.gameActive = false ∨ s.isProcessing = true
      ∨ jsGet s.boardState i ≠ some E) :
    handlePlayerMove s i = (s, []) := by
  unfold handlePlayerMove
  by_cases hg1 : s.gameActive = false ∨ s.isProcessing = true
  · rw [if_pos hg1]
  · rw [if_neg hg1]
    have hc : jsGet s.boardState i ≠ some E := by
      rcases h with h1 | h2 | h3
      · exact absurd (Or.inl h1) hg1
      · exact absurd (Or.inr h2) hg1
      · exact h3
    rw [if_pos hc]

/-- Active state whose cell 0 is already occupied. -/
def c6OccState : GameState :=
  { boardState := [X,E,E, E,E,E, E,E,E], gameActive := true,
    isProcessing := false, statusText := "Your Turn", statusCss := none }

/-- Witness for C6: a move on the occupied cell 0 is a silent no-op. -/
theorem illegal_move_noop_witness :
    jsGet c6OccState.boardState 0 ≠ some E
    ∧ handlePlayerMove c6OccState 0 = (c6OccState, []) :=
  ⟨by decide, illegal_move_noop c6OccState 0 (Or.inr (Or.inr (by decide)))⟩

/-- C7: `resetGame` always succeeds from any state, leaving an all-Empty
board, InProgress status, cleared processing flag, and the human's turn. -/
theorem resetGame_spec (s : GameState) :
    (resetGame s).1.boardState = List.replicate 9 E
    ∧ getStatus (resetGame s).1 = .InProgress
    ∧ (resetGame s).1.gameActive = true
    ∧ (resetGame s).1.isProcessing = false
    ∧ (resetGame s).1.statusText = "Your Turn" :=
  ⟨rfl, rfl, rfl, rfl, rfl⟩

/-- C8: the two non-reset steps of the state machine preserve the Terminal
state: once `gameActive` is false, neither a player step nor an agent tick
makes the game active again. -/
theorem terminal_stays_terminal (s : GameState) (i : Int) (r1 r2 : Nat)
    (h : s.gameActive = false) :
    (playerStep s i).gameActive = false
    ∧ (agentTick s r1 r2).gameActive = false := by
  constructor
  · unfold playerStep handlePlayerMove
    rw [if_pos (Or.inl h)]
    exact h
  · unfold agentTick aiMove
    rw [if_pos h]
    exact h

/-- A concrete Terminal (player-won) state. -/
def c8DoneState : GameState :=
  { boardState := [X,X,X, O,O,E, E,E,E], gameActive := false,
    isProcessing := false, statusText := "You Win 🎉", statusCss := some "win" }

/-- Witness for C8 at a concrete Terminal state. -/
theorem terminal_stays_terminal_witness :
    c8DoneState.gameActive = false
    ∧ (playerStep c8DoneState 5).gameActive = false
    ∧ (agentTick c8DoneState 0 0).gameActive = false :=
  ⟨rfl, (terminal_stays_terminal c8DoneState 5 0 0 rfl).1,
   (terminal_stays_terminal c8DoneState 5 0 0 rfl).2⟩

/-- C9: on every board reachable from the initial state through the
controller's step relation, at most one of the two marks has a completed
three-in-a-row line. -/
theorem reachable_single_winner (s : GameState) (h : Reachable s) :
    ¬(hasLine s.boardState X = true ∧ hasLine s.boardState O = true) :=
  (inv_reachable h).2.2

/-- Witness for C9 at the initial state. -/
theorem reachable_single_winner_witness :
    ¬(hasLine initialState.boardState X = true
      ∧ hasLine initialState.boardState O = true) :=
  reachable_single_winner initialState Reachable.init

/-- C10: invoking `aiMove` while the game is Terminal is a complete no-op:
the state (board, status, processing flag) is returned unchanged and no
events are emitted, so no mark is placed. -/
theorem aiMove_terminal_noop (s : GameState) (r1 r2 : Nat)
    (h : s.gameActive = false) : aiMove s r1 r2 = (s, []) := by
  unfold aiMove
  rw [if_pos h]

/-- A concrete Terminal (draw) state. -/
def c10DrawState : GameState :=
  { boardState := [X,X,O, O,O,X, X,O,X], gameActive := false,
    isProcessing := false, statusText := "It's a Draw 🤝",
    statusCss := some "draw" }

/-- Witness for C10 at a concrete Terminal state. -/
theorem aiMove_terminal_noop_witness :
    c10DrawState.gameActive = false
    ∧ aiMove c10DrawState 4 7 = (c10DrawState, []) :=
  ⟨rfl, aiMove_terminal_noop c10DrawState 4 7 rfl⟩

example : checkWinner [X,X,X, E,E,E, E,E,E] = .winner X := by decide
example : checkWinner [X,X,O, O,O,X, X,O,X] = .draw := by decide
example : checkWinner (List.replicate 9 E) = .cont := by decide
example : findWinningMove [X,X,E, E,E,E, E,E,E] X = some 2 := by decide
example : aiChoice [X,E,E, E,E,E, E,E,E] 0 0 = some 4 := by decide
example : aiChoice [X,E,E, E,X,E, E,E,E] 0 0 = some 8 := by decide

end TTT
